import Mathlib

/-!
Shallow embedding of the `delphi` repository (src/app.py and
src/llms/llm_cli.py).

Python dicts are embedded as association lists in insertion order:
assignment to an existing key replaces the entry in place, assignment
to a fresh key appends, `del` removes the entry.  Stateful handlers
(`on_mcp`, `on_mcp_disconnect`, `on_message`) become pure functions from
an explicit state to a new state together with the notifications they
emit.  External effects (`session.list_tools()`, the model completion
endpoints, the filesystem) enter as explicit parameters: a `list_tools`
outcome is an `Except`, the completion paths produce the request value
they would send, and the `./output` directory is a list of entries.
-/

/-- A chat message as the dicts `{"role": ..., "content": ...}` used in
`message_history` (src/app.py lines 51, 58, 78). -/
structure Message where
  role : String
  content : String
  deriving DecidableEq, Repr

/-- A tool as returned by `session.list_tools()` — the fields of `t` read
at src/app.py lines 91-93. -/
structure MCPToolRaw where
  name : String
  description : String
  inputSchema : String
  deriving DecidableEq, Repr

/-- The dict built from a raw tool at src/app.py lines 89-96. -/
structure ToolDescriptor where
  name : String
  description : String
  input_schema : String
  deriving DecidableEq, Repr

/-- The comprehension body at src/app.py lines 90-94. -/
def toolEntry (t : MCPToolRaw) : ToolDescriptor :=
  ⟨t.name, t.description, t.inputSchema⟩

/-- A Python dict from provider name to tool list, in insertion order. -/
abbrev Cache := List (String × List ToolDescriptor)

/-- `d[k] = v` on a Python dict: replace in place when the key is
present, append otherwise. -/
def dictPut (d : Cache) (k : String) (v : List ToolDescriptor) : Cache :=
  match d with
  | [] => [(k, v)]
  | (k', v') :: rest =>
      if k' = k then (k, v) :: rest else (k', v') :: dictPut rest k v

/-- `del d[k]` (guarded by `if k in d`): drop the entry for `k`; on a
dict every key occurs at most once, so dropping all matches is the
same. -/
def dictRemove (d : Cache) (k : String) : Cache :=
  d.filter (fun p => !(p.1 == k))

/-- The keys of the dict, i.e. `k in d`. -/
def dictKeys (d : Cache) : List String :=
  d.map Prod.fst

/-- `d[k]` as a lookup (first matching entry). -/
def dictLookup (d : Cache) (k : String) : Option (List ToolDescriptor) :=
  match d with
  | [] => none
  | (k', v) :: rest => if k' = k then some v else dictLookup rest k

/-- The mutable tool state: the module-level `mcp_tools_cache` dict
(src/app.py line 44) and the user-session `"mcp_tools"` dict
(src/app.py lines 102-104, 118-121; `get` defaults to `{}`). -/
structure AppState where
  mcp_tools_cache : Cache
  mcp_tools : Cache
  deriving DecidableEq, Repr

/-- Both dicts are empty before any handler runs (line 44; the session
default `{}`). -/
def startState : AppState := ⟨[], []⟩

/-- A user-visible notification sent with `await cl.Message(...).send()`.
The text of each is produced by `renderNotification`.  The message built
at src/app.py line 84 is not modelled as emitted: its `.send()` coroutine
is never awaited, so it is never delivered. -/
inductive Notification where
  | found (name : String) (count : Nat)
  | errorListing (msg : String)
  | disconnected (name : String)
  deriving DecidableEq, Repr

/-- The f-string text of each notification (src/app.py lines 106-108,
110, 123). -/
def renderNotification : Notification → String
  | .found n c => "Found " ++ toString c ++ " tools from " ++ n ++ " MCP server."
  | .errorListing m => "Error listing tools from MCP server: " ++ m
  | .disconnected n => "Disconnected from MCP server: " ++ n

/-- `on_mcp` (src/app.py lines 82-110).  `result` is the outcome of
`await session.list_tools()`: `.ok` carries `result.tools`, `.error`
carries `str(e)` for the raised exception.  Returns the new state and
the notifications emitted. -/
def on_mcp (st : AppState) (connName : String)
    (result : Except String (List MCPToolRaw)) : AppState × List Notification :=
  match result with
  | .ok rawTools =>
      let tools := rawTools.map toolEntry
      let cache' := dictPut st.mcp_tools_cache connName tools
      let sess' := dictPut st.mcp_tools connName tools
      (⟨cache', sess'⟩, [.found connName tools.length])
  | .error e =>
      (st, [.errorListing e])

/-- `on_mcp_disconnect` (src/app.py lines 113-123). -/
def on_mcp_disconnect (st : AppState) (name : String) : AppState × List Notification :=
  let cache' := dictRemove st.mcp_tools_cache name
  let sess' := dictRemove st.mcp_tools name
  (⟨cache', sess'⟩, [.disconnected name])

/-- One MCP-lifecycle event: a connect (with its `list_tools()` outcome)
or a disconnect. -/
inductive MCPEvent where
  | connect (name : String) (result : Except String (List MCPToolRaw))
  | disconnect (name : String)

/-- The provider name an event concerns. -/
def eventName : MCPEvent → String
  | .connect n _ => n
  | .disconnect n => n

/-- Whether an event is a connect whose `list_tools()` succeeded. -/
def isConnectSuccess : MCPEvent → Bool
  | .connect _ (.ok _) => true
  | _ => false

/-- Run one event through its handler, keeping the state. -/
def applyEvent (st : AppState) : MCPEvent → AppState
  | .connect n res => (on_mcp st n res).1
  | .disconnect n => (on_mcp_disconnect st n).1

/-- Run a sequence of events in order. -/
def applyEvents (st : AppState) : List MCPEvent → AppState
  | [] => st
  | e :: rest => applyEvents (applyEvent st e) rest

/-- The last event in the sequence concerning a given name, if any. -/
def lastEventFor (n : String) (evts : List MCPEvent) : Option MCPEvent :=
  (evts.filter (fun e => eventName e == n)).getLast?

/-- Whether the last event for `n` was a connect whose `list_tools()`
succeeded. -/
def lastEventWasConnectSuccess (n : String) (evts : List MCPEvent) : Bool :=
  match lastEventFor n evts with
  | some e => isConnectSuccess e
  | none => false

/-- `MCPServer(name=..., url=...)` (src/app.py lines 28-31). -/
structure MCPServer where
  name : String
  url : String
  deriving DecidableEq, Repr

/-- The `Agent(...)` constructed at src/app.py lines 34-39.  `model` is
`os.getenv("AZURE_OPENAI_DEPLOYMENT")`, passed in explicitly. -/
structure Agent where
  name : String
  instructions : String
  model : Option String
  mcp_servers : List MCPServer
  deriving DecidableEq, Repr

/-- `agent_with_mcp` (src/app.py lines 25-40).  The parameter defaults to
`None`, in which case the hardcoded single-server list is used. -/
def agent_with_mcp (model : Option String) (mcp_servers : Option (List MCPServer)) : Agent :=
  let servers :=
    match mcp_servers with
    | none => [⟨"openai", "https://api.openai.com/v1/mcp/server"⟩]
    | some s => s
  ⟨"apollo", "A helpful assistant that can answer questions", model, servers⟩

/-- One event of the turn's stream, as discriminated by the
`event.type` / `hasattr(event.data, "delta")` checks at
src/app.py lines 66-76; `other` stands for any event matching none of
the three branches (the loop ignores it). -/
inductive StreamEvent where
  | tokenDelta (text : String)
  | toolCall (calls : List String)
  | toolResult (result : String)
  | other
  deriving DecidableEq, Repr

/-- The `async for` loop at src/app.py lines 66-76, as its effect on the
in-progress message content `mgs.content`: `stream_token` appends the
delta text; `stream_tool_calls` and `stream_tool_result` render separate
visual units and leave the content untouched. -/
def renderLoop (acc : String) : List StreamEvent → String
  | [] => acc
  | .tokenDelta t :: rest => renderLoop (acc ++ t) rest
  | .toolCall _ :: rest => renderLoop acc rest
  | .toolResult _ :: rest => renderLoop acc rest
  | .other :: rest => renderLoop acc rest

/-- What one turn produces: the updated `message_history` and the agent
the turn was run with. -/
structure TurnResult where
  message_history : List Message
  agent : Agent
  deriving Repr

/-- `on_message` (src/app.py lines 55-79).  `st` is the ambient tool
state at the moment the turn begins, `history` the stored
`message_history`, `content` the incoming `message.content`, `events`
the stream produced by `Runner.run_streamed`.  Line 63 calls
`agent_with_mcp()` with no arguments, so the agent is built from the
default server list; `st` is never consulted. -/
def on_message (model : Option String) (st : AppState) (history : List Message)
    (content : String) (events : List StreamEvent) : TurnResult :=
  let history1 := history ++ [⟨"user", content⟩]
  let agent := agent_with_mcp model none
  let final := renderLoop "" events
  ⟨history1 ++ [⟨"assistant", final⟩], agent⟩

/-- `start_chat` (src/app.py lines 47-52): the seeded
`message_history`. -/
def start_chat : List Message :=
  [⟨"system", "You are a helpful assistant."⟩]

/-- The texts of the `tokenDelta` events of a stream, in arrival
order. -/
def deltaTexts : List StreamEvent → List String
  | [] => []
  | .tokenDelta t :: rest => t :: deltaTexts rest
  | .toolCall _ :: rest => deltaTexts rest
  | .toolResult _ :: rest => deltaTexts rest
  | .other :: rest => deltaTexts rest

/-!  src/llms/llm_cli.py  -/

/-- The system prompt shared by both completion paths (src/llms/llm_cli.py
lines 66-74 and 87-94; the literal is repeated in the source). -/
def historianInstructions : String :=
  "You are a Historian. " ++
  "You are given a country name, corresponding location, and type of armed forces " ++
  "(e.g. army, navy). " ++
  "You are to generate an army group/navy squadron name for that country in its corresponding " ++
  "language but romanized if possible. " ++
  "No other text should be generated. " ++
  "If there was a historical name, use that instead."

/-- The chat-completions request `generate_azure_completion` sends
(src/llms/llm_cli.py lines 53-79); the network call itself is the
external boundary, so the path is embedded as the request it
constructs. -/
structure AzureRequest where
  model : String
  messages : List Message
  deriving DecidableEq, Repr

/-- `generate_azure_completion` (src/llms/llm_cli.py lines 53-79). -/
def generate_azure_completion (llm_model user_input_prompt : String) : AzureRequest :=
  ⟨llm_model,
   [⟨"system", historianInstructions⟩, ⟨"user", user_input_prompt⟩]⟩

/-- The `generate_content` request `generate_gemini_completion` sends
(src/llms/llm_cli.py lines 82-99): the model name and the combined
`full_prompt`. -/
structure GeminiRequest where
  model : String
  full_prompt : String
  deriving DecidableEq, Repr

/-- `generate_gemini_completion` (src/llms/llm_cli.py lines 82-99). -/
def generate_gemini_completion (llm_model user_input_prompt : String) : GeminiRequest :=
  ⟨llm_model, historianInstructions ++ "\n\nQuery: " ++ user_input_prompt⟩

/-- The request a `generate_completion` call resolves to: which provider
path was taken and what it would send. -/
inductive CompletionRequest where
  | azure (req : AzureRequest)
  | gemini (req : GeminiRequest)
  deriving DecidableEq, Repr

/-- `generate_completion` (src/llms/llm_cli.py lines 102-111), with the
environment made explicit: `gemini_api_key` is `os.getenv("GEMINI_API_KEY")`.
A `.error` is a raised `ValueError` carrying its message: the dispatcher
raises for an unsupported provider (line 111), and `get_gemini_client`
(line 46), called on the gemini path, raises when the key is unset. -/
def generate_completion (gemini_api_key : Option String)
    (llm_model user_input_prompt : String) (provider : String) :
    Except String CompletionRequest :=
  if provider = "azure_openai" then
    .ok (.azure (generate_azure_completion llm_model user_input_prompt))
  else if provider = "gemini" then
    match gemini_api_key with
    | none => .error "GEMINI_API_KEY environment variable is required for Gemini API"
    | some _ => .ok (.gemini (generate_gemini_completion llm_model user_input_prompt))
  else
    .error ("Unsupported provider: " ++ provider)

/-- One entry of the `./output` directory: its name and whether
`os.path.isfile` holds for it (subdirectories have `isFile = false`). -/
structure DirEntry where
  name : String
  isFile : Bool
  deriving DecidableEq, Repr

/-- The model list chosen at src/llms/llm_cli.py lines 122-127; `.error`
is the `ValueError` raised for an unsupported provider. -/
def modelListFor (provider : String) : Except String (List String) :=
  if provider = "azure_openai" then
    .ok ["gpt-4o", "gpt-4.1", "o3"]
  else if provider = "gemini" then
    .ok ["gemini-2.0-flash-exp", "gemini-1.5-flash", "gemini-1.5-pro"]
  else
    .error ("Unsupported provider: " ++ provider)

/-- The directory-clearing block at src/llms/llm_cli.py lines 130-140:
when `./output` exists, unlink every regular file directly inside it and
keep the rest; when it does not, `os.makedirs` creates it empty. -/
def clearOutputDir (d : Option (List DirEntry)) : List DirEntry :=
  match d with
  | some entries => entries.filter (fun e => !e.isFile)
  | none => []

/-- The basename used at src/llms/llm_cli.py line 150. -/
def outputFileName (provider model : String) : String :=
  "hoi4_names_" ++ provider ++ "_" ++ model ++ ".txt"

/-- `open(filename, "w")` inside `./output`: truncate an existing regular
file, create a fresh one otherwise; opening a name held by a
subdirectory raises `IsADirectoryError`.  The file's text (responses or
error lines, src/llms/llm_cli.py lines 152-167) is not tracked — the
`try`/`except` there writes to the already-open file either way, so the
set of files produced does not depend on completion outcomes. -/
def writeModelFile (entries : List DirEntry) (fname : String) :
    Except String (List DirEntry) :=
  if entries.any (fun e => e.name == fname && !e.isFile) then
    .error ("IsADirectoryError: " ++ fname)
  else if entries.any (fun e => e.name == fname) then
    .ok entries
  else
    .ok (entries ++ [⟨fname, true⟩])

/-- The `for model in llm_model_list` loop at src/llms/llm_cli.py
lines 148-167, as its effect on the directory. -/
def writeModelFiles (entries : List DirEntry) : List String → Except String (List DirEntry)
  | [] => .ok entries
  | fname :: rest =>
      match writeModelFile entries fname with
      | .error e => .error e
      | .ok entries' => writeModelFiles entries' rest

/-- `provider.lower()` at src/llms/llm_cli.py line 118, as a
character-by-character map (the library `String.toLower` is the same
function, but its implementation does not kernel-reduce, so this
explicit form keeps the definition evaluable). -/
def strLower (s : String) : String :=
  ⟨s.data.map Char.toLower⟩

/-- `main` (src/llms/llm_cli.py lines 114-167) as its effect on the
`./output` directory.  `llm_provider_env` is `os.getenv("LLM_PROVIDER")`
(defaulted to `"gemini"`, then lowercased); `output0` is the directory's
prior contents, `none` when it does not exist.  The provider check
raises before the directory is touched.  (Named `mainRun` because `main`
is reserved for an entry point in Lean.) -/
def mainRun (llm_provider_env : Option String) (output0 : Option (List DirEntry)) :
    Except String (List DirEntry) :=
  let provider := strLower (llm_provider_env.getD "gemini")
  match modelListFor provider with
  | .error e => .error e
  | .ok models =>
      let cleared := clearOutputDir output0
      writeModelFiles cleared (models.map (outputFileName provider))

/-!  Concrete inputs used by witnesses and counterexamples.  -/

/-- A sample cached tool descriptor. -/
def weatherTool : ToolDescriptor := ⟨"get_weather", "Current weather for a city", "object"⟩

/-- A tool state in which one provider, `"weather"`, is cached. -/
def weatherState : AppState :=
  ⟨[("weather", [weatherTool])], [("weather", [weatherTool])]⟩

/-- A sample raw tool as `list_tools()` would return it. -/
def sampleTool : MCPToolRaw := ⟨"read_file", "Read a file", "object"⟩

/-- A second sample raw tool. -/
def sampleTool2 : MCPToolRaw := ⟨"write_file", "Write a file", "object"⟩

/-- A sample event sequence over pairwise-distinct provider names. -/
def sampleEvents : List MCPEvent :=
  [.connect "alpha" (.ok [sampleTool]),
   .connect "beta" (.error "provider unreachable"),
   .disconnect "gamma"]

/-- A sample prior content of `./output`: one regular file, one
subdirectory. -/
def sampleOutput : List DirEntry := [⟨"old.txt", true⟩, ⟨"archive", false⟩]

/-- The directory entries `main` writes: one regular file per model. -/
def outputFiles (provider : String) (models : List String) : List DirEntry :=
  models.map (fun m => ⟨outputFileName provider m, true⟩)

/-!  Lemmas about the embedded definitions.  -/

theorem renderLoop_eq (evts : List StreamEvent) (acc : String) :
    renderLoop acc evts = acc ++ String.join (deltaTexts evts) := by
  induction evts generalizing acc with
  | nil => simp [renderLoop, deltaTexts, String.join]
  | cons e rest ih =>
    cases e with
    | tokenDelta t =>
        rw [renderLoop, deltaTexts, ih]
        have : String.join (t :: deltaTexts rest) = t ++ String.join (deltaTexts rest) := by
          simp [String.join_eq, String.ext_iff, String.data_append]
        rw [this, String.append_assoc]
    | toolCall c => rw [renderLoop, deltaTexts, ih]
    | toolResult r => rw [renderLoop, deltaTexts, ih]
    | other => rw [renderLoop, deltaTexts, ih]

/-- C1: the final assistant message appended by a turn is exactly the
concatenation, in arrival order, of the texts of the stream's
`tokenDelta` events; `toolCall` and `toolResult` events contribute
nothing to it and do not reorder it. -/
theorem turnFinalAssistantMessage (model : Option String) (st : AppState)
    (history : List Message) (content : String) (events : List StreamEvent) :
    (on_message model st history content events).message_history.getLast?
      = some ⟨"assistant", String.join (deltaTexts events)⟩ := by
  simp [on_message, renderLoop_eq]

/-- C2 (counterexample): with provider `"weather"` cached, the turn's
agent is not built from the cache snapshot — its server-name list is not
the cache's key list. -/
theorem turnToolSetCounterexample :
    ¬ ((on_message none weatherState start_chat "hi" []).agent.mcp_servers.map MCPServer.name
        = dictKeys weatherState.mcp_tools_cache) := by
  decide

/-- C2 (amended): the agent of every turn is built by
`agent_with_mcp` with its default argument, hence carries the fixed
hardcoded server list; the tool state at the start of the turn (or at
any other moment) plays no part in it. -/
theorem turnToolSetFixedDefault (model : Option String) (st st' : AppState)
    (history history' : List Message) (content content' : String)
    (events events' : List StreamEvent) :
    (on_message model st history content events).agent
      = (on_message model st' history' content' events').agent ∧
    (on_message model st history content events).agent
      = agent_with_mcp model none ∧
    (on_message model st history content events).agent.mcp_servers
      = [⟨"openai", "https://api.openai.com/v1/mcp/server"⟩] := by
  exact ⟨rfl, rfl, rfl⟩

/-- C8: the seeded history is the single default system message, and a
turn extends the stored history by exactly the new user message and the
final assistant message, leaving the prior history an unchanged
prefix. -/
theorem historyAppendOnly :
    start_chat = [⟨"system", "You are a helpful assistant."⟩] ∧
    ∀ (model : Option String) (st : AppState) (history : List Message)
      (content : String) (events : List StreamEvent),
      (on_message model st history content events).message_history
        = history ++ [⟨"user", content⟩, ⟨"assistant", renderLoop "" events⟩] ∧
      history <+: (on_message model st history content events).message_history := by
  refine ⟨rfl, fun model st history content events => ⟨?_, ?_⟩⟩
  · simp [on_message]
  · exact ⟨[⟨"user", content⟩, ⟨"assistant", renderLoop "" events⟩], by simp [on_message]⟩

theorem mem_dictKeys_dictPut (d : Cache) (k : String) (v : List ToolDescriptor) (n : String) :
    n ∈ dictKeys (dictPut d k v) ↔ n = k ∨ n ∈ dictKeys d := by
  induction d with
  | nil => simp [dictPut, dictKeys]
  | cons p rest ih =>
    obtain ⟨k', v'⟩ := p
    by_cases hk : k' = k
    · subst hk
      simp only [dictPut, if_true]
      simp only [dictKeys, List.map_cons, List.mem_cons]
      tauto
    · simp only [dictPut]
      rw [if_neg hk]
      simp only [dictKeys, List.map_cons, List.mem_cons] at ih ⊢
      rw [ih]
      tauto

theorem mem_dictKeys_dictRemove (d : Cache) (k n : String) :
    n ∈ dictKeys (dictRemove d k) ↔ n ∈ dictKeys d ∧ n ≠ k := by
  simp only [dictRemove, dictKeys, List.mem_map, List.mem_filter, Bool.not_eq_eq_eq_not,
    Bool.not_true, beq_eq_false_iff_ne, ne_eq]
  constructor
  · rintro ⟨p, ⟨hp, hpk⟩, rfl⟩
    exact ⟨⟨p, hp, rfl⟩, hpk⟩
  · rintro ⟨⟨p, hp, rfl⟩, hpk⟩
    exact ⟨p, ⟨hp, hpk⟩, rfl⟩

theorem dictRemove_of_not_mem (d : Cache) (k : String) (h : k ∉ dictKeys d) :
    dictRemove d k = d := by
  refine List.filter_eq_self.mpr ?_
  intro p hp
  simp only [Bool.not_eq_eq_eq_not, Bool.not_true, beq_eq_false_iff_ne, ne_eq]
  intro hpk
  exact h (by simp only [dictKeys, List.mem_map]; exact ⟨p, hp, hpk⟩)

theorem dictLookup_dictPut_self (d : Cache) (k : String) (v : List ToolDescriptor) :
    dictLookup (dictPut d k v) k = some v := by
  induction d with
  | nil => simp [dictPut, dictLookup]
  | cons p rest ih =>
    obtain ⟨k', v'⟩ := p
    by_cases hk : k' = k
    · subst hk; simp [dictPut, dictLookup]
    · simp [dictPut, dictLookup, hk, ih]

/-- How many entries of the dict carry the key `n`. -/
def countKey (d : Cache) (n : String) : Nat :=
  d.countP (fun p => p.1 == n)

theorem countKey_eq_zero (d : Cache) (n : String) (h : n ∉ dictKeys d) :
    countKey d n = 0 := by
  refine List.countP_eq_zero.mpr ?_
  intro p hp
  simp only [beq_iff_eq]
  intro hpn
  exact h (by simp only [dictKeys, List.mem_map]; exact ⟨p, hp, hpn⟩)

theorem countKey_dictPut (d : Cache) (n : String) (v : List ToolDescriptor)
    (hnodup : (dictKeys d).Nodup) :
    countKey (dictPut d n v) n = 1 := by
  induction d with
  | nil => simp [dictPut, countKey]
  | cons p rest ih =>
    obtain ⟨k', v'⟩ := p
    simp only [dictKeys, List.map_cons, List.nodup_cons] at hnodup
    obtain ⟨hk', hrest⟩ := hnodup
    by_cases hk : k' = n
    · subst hk
      simp only [dictPut, if_true]
      simp only [countKey, List.countP_cons]
      have h0 : countKey rest k' = 0 := countKey_eq_zero rest k' hk'
      simp only [countKey] at h0
      simp [h0]
    · simp only [dictPut]
      rw [if_neg hk]
      simp only [countKey, List.countP_cons]
      have h1 := ih hrest
      simp only [countKey] at h1
      simp [h1, hk]

theorem dictPut_dictPut (d : Cache) (n : String) (v1 v2 : List ToolDescriptor) :
    dictPut (dictPut d n v1) n v2 = dictPut d n v2 := by
  induction d with
  | nil => simp [dictPut]
  | cons p rest ih =>
    obtain ⟨k', v'⟩ := p
    by_cases hk : k' = n
    · subst hk; simp [dictPut]
    · simp [dictPut, hk, ih]

/-- C4: two successful connects in a row under the same name leave the
cache with exactly one entry for that name, holding the second
connect's tool list; putting the same list twice equals putting it
once. -/
theorem connectTwiceOverwrites (st : AppState) (n : String)
    (ts1 ts2 : List MCPToolRaw)
    (hnodup : (dictKeys st.mcp_tools_cache).Nodup) :
    countKey ((on_mcp (on_mcp st n (.ok ts1)).1 n (.ok ts2)).1.mcp_tools_cache) n = 1 ∧
    dictLookup ((on_mcp (on_mcp st n (.ok ts1)).1 n (.ok ts2)).1.mcp_tools_cache) n
      = some (ts2.map toolEntry) ∧
    (on_mcp (on_mcp st n (.ok ts1)).1 n (.ok ts1)).1.mcp_tools_cache
      = (on_mcp st n (.ok ts1)).1.mcp_tools_cache := by
  refine ⟨?_, ?_, ?_⟩
  · simp only [on_mcp, dictPut_dictPut]
    exact countKey_dictPut _ _ _ hnodup
  · simp only [on_mcp, dictPut_dictPut]
    exact dictLookup_dictPut_self _ _ _
  · simp only [on_mcp, dictPut_dictPut]

/-- Witness for C4 at a concrete state and tool lists. -/
theorem connectTwiceOverwrites_witness :
    countKey ((on_mcp (on_mcp startState "fs" (.ok [sampleTool])).1 "fs"
        (.ok [sampleTool2])).1.mcp_tools_cache) "fs" = 1 ∧
    dictLookup ((on_mcp (on_mcp startState "fs" (.ok [sampleTool])).1 "fs"
        (.ok [sampleTool2])).1.mcp_tools_cache) "fs"
      = some ([sampleTool2].map toolEntry) ∧
    (on_mcp (on_mcp startState "fs" (.ok [sampleTool])).1 "fs"
        (.ok [sampleTool])).1.mcp_tools_cache
      = (on_mcp startState "fs" (.ok [sampleTool])).1.mcp_tools_cache :=
  connectTwiceOverwrites startState "fs" [sampleTool] [sampleTool2] (by decide)

/-- C5: disconnecting a name absent from both tool dicts raises no
error and leaves the whole state unchanged, emitting only the
disconnect notification. -/
theorem disconnectAbsentNoop (st : AppState) (n : String)
    (h1 : n ∉ dictKeys st.mcp_tools_cache) (h2 : n ∉ dictKeys st.mcp_tools) :
    (on_mcp_disconnect st n).1 = st ∧
    (on_mcp_disconnect st n).2 = [.disconnected n] := by
  obtain ⟨cache, sess⟩ := st
  refine ⟨?_, rfl⟩
  simp only [on_mcp_disconnect]
  rw [dictRemove_of_not_mem _ _ h1, dictRemove_of_not_mem _ _ h2]

/-- Witness for C5: disconnecting `"ghost"` from the weather state. -/
theorem disconnectAbsentNoop_witness :
    (on_mcp_disconnect weatherState "ghost").1 = weatherState ∧
    (on_mcp_disconnect weatherState "ghost").2 = [.disconnected "ghost"] :=
  disconnectAbsentNoop weatherState "ghost" (by decide) (by decide)

/-- C6: a connect whose `list_tools()` raises leaves the state exactly
as it was, emits the error notification carrying the failure
description, and does not prevent a later successful connect under the
same name from populating the cache. -/
theorem connectFailureIsolated (st : AppState) (n e : String) :
    (on_mcp st n (.error e)).1 = st ∧
    Notification.errorListing e ∈ (on_mcp st n (.error e)).2 ∧
    renderNotification (.errorListing e) = "Error listing tools from MCP server: " ++ e ∧
    ∀ ts : List MCPToolRaw,
      dictLookup ((on_mcp (on_mcp st n (.error e)).1 n (.ok ts)).1.mcp_tools_cache) n
        = some (ts.map toolEntry) := by
  refine ⟨rfl, by simp [on_mcp], rfl, ?_⟩
  intro ts
  simp only [on_mcp]
  exact dictLookup_dictPut_self _ _ _

/-- C7: the "found N tools" notification is emitted exactly when
`list_tools()` succeeds, with N the number of tools listed; a failed
connect emits only the error notification. -/
theorem foundNotificationIffSuccess (st : AppState) (n : String)
    (res : Except String (List MCPToolRaw)) :
    ((∃ N, Notification.found n N ∈ (on_mcp st n res).2) ↔ res.isOk = true) ∧
    (∀ ts, (on_mcp st n (.ok ts)).2 = [.found n ts.length]) ∧
    (∀ e, (on_mcp st n (.error e)).2 = [.errorListing e]) := by
  refine ⟨?_, fun ts => by simp [on_mcp], fun e => rfl⟩
  cases res with
  | ok ts =>
      constructor
      · intro _; rfl
      · intro _
        exact ⟨(ts.map toolEntry).length, by simp [on_mcp]⟩
  | error e =>
      constructor
      · rintro ⟨N, hN⟩
        simp [on_mcp] at hN
      · intro h
        simp [Except.isOk, Except.toBool] at h

theorem applyEvent_mem_of_ne (st : AppState) (e : MCPEvent) (n : String)
    (hne : eventName e ≠ n) :
    (n ∈ dictKeys (applyEvent st e).mcp_tools_cache ↔ n ∈ dictKeys st.mcp_tools_cache) := by
  cases e with
  | connect m res =>
      cases res with
      | ok ts =>
          simp only [applyEvent, on_mcp, mem_dictKeys_dictPut]
          simp only [eventName] at hne
          constructor
          · rintro (rfl | h)
            · exact absurd rfl hne
            · exact h
          · exact fun h => Or.inr h
      | error ex => exact Iff.rfl
  | disconnect m =>
      simp only [applyEvent, on_mcp_disconnect, mem_dictKeys_dictRemove]
      simp only [eventName] at hne
      constructor
      · exact fun h => h.1
      · exact fun h => ⟨h, fun hnm => hne (hnm ▸ rfl)⟩

theorem applyEvents_mem_of_absent (evts : List MCPEvent) (st : AppState) (n : String)
    (hall : ∀ e ∈ evts, eventName e ≠ n) :
    (n ∈ dictKeys (applyEvents st evts).mcp_tools_cache ↔
      n ∈ dictKeys st.mcp_tools_cache) := by
  induction evts generalizing st with
  | nil => exact Iff.rfl
  | cons e rest ih =>
      rw [applyEvents]
      rw [ih (applyEvent st e) (fun x hx => hall x (List.mem_cons_of_mem e hx))]
      exact applyEvent_mem_of_ne st e n (hall e (List.mem_cons_self e rest))

theorem lastEventFor_cons_ne (n : String) (e : MCPEvent) (rest : List MCPEvent)
    (hne : eventName e ≠ n) :
    lastEventFor n (e :: rest) = lastEventFor n rest := by
  simp only [lastEventFor, List.filter_cons]
  have : (eventName e == n) = false := by simp [hne]
  simp [this]

theorem applyEvents_mem_main (evts : List MCPEvent) (st : AppState) (n : String)
    (hnodup : (evts.map eventName).Nodup)
    (hn : n ∉ dictKeys st.mcp_tools_cache) :
    (n ∈ dictKeys (applyEvents st evts).mcp_tools_cache ↔
      lastEventWasConnectSuccess n evts = true) := by
  induction evts generalizing st with
  | nil =>
      simp only [applyEvents, lastEventWasConnectSuccess, lastEventFor, List.filter_nil,
        List.getLast?_nil]
      simp [hn]
  | cons e rest ih =>
      simp only [List.map_cons, List.nodup_cons] at hnodup
      obtain ⟨hhead, htail⟩ := hnodup
      by_cases he : eventName e = n
      · have hrest : ∀ x ∈ rest, eventName x ≠ n := by
          intro x hx hxn
          exact hhead (he ▸ hxn ▸ List.mem_map_of_mem eventName hx)
        rw [applyEvents, applyEvents_mem_of_absent rest _ n hrest]
        have hfilter : rest.filter (fun x => eventName x == n) = [] :=
          List.filter_eq_nil_iff.mpr (by intro x hx; simpa using hrest x hx)
        have hlast : lastEventFor n (e :: rest) = some e := by
          simp only [lastEventFor, List.filter_cons]
          have : (eventName e == n) = true := by simp [he]
          simp [this, hfilter]
        rw [lastEventWasConnectSuccess, hlast]
        cases e with
        | connect m res =>
            simp only [eventName] at he
            subst he
            cases res with
            | ok ts =>
                simp only [applyEvent, on_mcp, mem_dictKeys_dictPut, isConnectSuccess]
                simp
            | error ex =>
                simp only [applyEvent, on_mcp, isConnectSuccess]
                simp [hn]
        | disconnect m =>
            simp only [eventName] at he
            subst he
            simp only [applyEvent, on_mcp_disconnect, mem_dictKeys_dictRemove,
              isConnectSuccess]
            simp
      · rw [applyEvents]
        have hn' : n ∉ dictKeys (applyEvent st e).mcp_tools_cache := by
          intro hc
          exact hn ((applyEvent_mem_of_ne st e n he).mp hc)
        rw [ih (applyEvent st e) htail hn']
        rw [lastEventWasConnectSuccess, lastEventWasConnectSuccess,
          lastEventFor_cons_ne n e rest he]

/-- C3: starting from the empty tool state, after any sequence of
connect/disconnect events over pairwise-distinct provider names, a name
is present in `mcp_tools_cache` exactly when its last event in the
sequence was a connect whose `list_tools()` succeeded. -/
theorem cacheReflectsLastConnect (evts : List MCPEvent)
    (hnodup : (evts.map eventName).Nodup) (n : String) :
    n ∈ dictKeys (applyEvents startState evts).mcp_tools_cache ↔
      lastEventWasConnectSuccess n evts = true :=
  applyEvents_mem_main evts startState n hnodup (by simp [startState, dictKeys])

/-- Witness for C3 on a concrete event sequence with distinct names:
a successful connect, a failed connect and a disconnect. -/
theorem cacheReflectsLastConnect_witness :
    ("alpha" ∈ dictKeys (applyEvents startState sampleEvents).mcp_tools_cache ↔
      lastEventWasConnectSuccess "alpha" sampleEvents = true) :=
  cacheReflectsLastConnect sampleEvents (by decide) "alpha"

/-- C9 (counterexample): with `GEMINI_API_KEY` unset and provider
`"gemini"` — a supported provider — `generate_completion` still raises a
`ValueError`, so "raises ValueError exactly when the provider is neither
supported value" fails. -/
theorem generateCompletionCounterexample :
    (generate_completion none "gemini-2.0-flash-exp" "Carthage, North Africa, Army"
        "gemini").isOk = false ∧
    ¬ ("gemini" ≠ "azure_openai" ∧ "gemini" ≠ "gemini") := by
  constructor
  · rfl
  · intro h
    exact h.2 rfl

/-- C9 (amended): `generate_completion` raises the unsupported-provider
`ValueError` for every provider other than `"azure_openai"` and
`"gemini"`; for those two it dispatches to the Azure or Gemini path and
returns that path's result — except that the Gemini path itself raises a
`ValueError` when `GEMINI_API_KEY` is unset. -/
theorem generateCompletionDispatch (gemini_api_key : Option String)
    (llm_model user_input_prompt provider : String) :
    (provider ≠ "azure_openai" → provider ≠ "gemini" →
      generate_completion gemini_api_key llm_model user_input_prompt provider
        = .error ("Unsupported provider: " ++ provider)) ∧
    (generate_completion gemini_api_key llm_model user_input_prompt "azure_openai"
      = .ok (.azure (generate_azure_completion llm_model user_input_prompt))) ∧
    (∀ k, generate_completion (some k) llm_model user_input_prompt "gemini"
      = .ok (.gemini (generate_gemini_completion llm_model user_input_prompt))) ∧
    (generate_completion none llm_model user_input_prompt "gemini"
      = .error "GEMINI_API_KEY environment variable is required for Gemini API") := by
  refine ⟨?_, rfl, fun k => rfl, rfl⟩
  intro h1 h2
  simp [generate_completion, h1, h2]

/-- Witness for C9: the dispatch at provider `"cohere"`. -/
theorem generateCompletionDispatch_witness :
    generate_completion none "command-r" "Carthage, North Africa, Army" "cohere"
      = .error ("Unsupported provider: " ++ "cohere") :=
  (generateCompletionDispatch none "command-r" "Carthage, North Africa, Army"
    "cohere").1 (by decide) (by decide)

theorem writeModelFiles_fresh (fnames : List String) (es : List DirEntry)
    (hnodup : fnames.Nodup)
    (hfresh : ∀ m ∈ fnames, ∀ e ∈ es, e.name ≠ m) :
    writeModelFiles es fnames = .ok (es ++ fnames.map (fun m => ⟨m, true⟩)) := by
  induction fnames generalizing es with
  | nil => simp [writeModelFiles]
  | cons m rest ih =>
      simp only [List.nodup_cons] at hnodup
      obtain ⟨hm, hrest⟩ := hnodup
      have hnone : ∀ e ∈ es, (e.name == m) = false := by
        intro e he
        simpa using hfresh m (List.mem_cons_self m rest) e he
      have hw : writeModelFile es m = .ok (es ++ [⟨m, true⟩]) := by
        simp only [writeModelFile]
        have h1 : es.any (fun e => e.name == m && !e.isFile) = false := by
          simp only [List.any_eq_false]
          intro e he
          simp [hnone e he]
        have h2 : es.any (fun e => e.name == m) = false := by
          simp only [List.any_eq_false]
          intro e he
          simp [hnone e he]
        simp [h1, h2]
      rw [writeModelFiles, hw]
      have hfresh' : ∀ x ∈ rest, ∀ e ∈ es ++ [(⟨m, true⟩ : DirEntry)], e.name ≠ x := by
        intro x hx e he
        rcases List.mem_append.mp he with he1 | he2
        · exact hfresh x (List.mem_cons_of_mem m hx) e he1
        · have he3 : e = ⟨m, true⟩ := by simpa using he2
          subst he3
          intro hc
          have hmx : m = x := hc
          exact hm (hmx.symm ▸ hx)
      show writeModelFiles (es ++ [⟨m, true⟩]) rest = _
      rw [ih (es ++ [(⟨m, true⟩ : DirEntry)]) hrest hfresh']
      simp

theorem clearOutputDir_filter_isFile (d : Option (List DirEntry)) :
    (clearOutputDir d).filter (fun e => e.isFile) = [] := by
  cases d with
  | none => rfl
  | some es =>
      simp only [clearOutputDir]
      refine List.filter_eq_nil_iff.mpr ?_
      intro e he
      have := (List.mem_filter.mp he).2
      simp only [Bool.not_eq_eq_eq_not, Bool.not_true] at this
      simp [this]

theorem clearOutputDir_filter_not_isFile (d : Option (List DirEntry)) :
    (clearOutputDir d).filter (fun e => !e.isFile) = clearOutputDir d := by
  cases d with
  | none => rfl
  | some es =>
      simp only [clearOutputDir]
      refine List.filter_eq_self.mpr ?_
      intro e he
      exact (List.mem_filter.mp he).2

theorem outputFiles_filter_isFile (p : String) (ms : List String) :
    (outputFiles p ms).filter (fun e => e.isFile) = outputFiles p ms := by
  refine List.filter_eq_self.mpr ?_
  intro e he
  obtain ⟨m, _, rfl⟩ := List.mem_map.mp he
  rfl

theorem outputFiles_filter_not_isFile (p : String) (ms : List String) :
    (outputFiles p ms).filter (fun e => !e.isFile) = [] := by
  refine List.filter_eq_nil_iff.mpr ?_
  intro e he
  obtain ⟨m, _, rfl⟩ := List.mem_map.mp he
  simp

/-- C10 (counterexample): not every run of `main` ends with one output
file per model, and not every run clears `./output` first.  With the
default gemini provider and `./output` holding a subdirectory whose name
collides with the first output filename, `open(filename, "w")` raises
`IsADirectoryError` and no per-model files are produced; and with the
unsupported provider `"cohere"`, `main` raises at the model-list check,
before the clearing block, so the stale regular file is never deleted. -/
theorem mainRunCounterexample :
    mainRun none (some [⟨"hoi4_names_gemini_gemini-2.0-flash-exp.txt", false⟩])
      = .error ("IsADirectoryError: " ++ "hoi4_names_gemini_gemini-2.0-flash-exp.txt") ∧
    mainRun (some "cohere") (some [⟨"stale.txt", true⟩])
      = .error ("Unsupported provider: " ++ "cohere") := by
  constructor
  · rfl
  · rfl

/-- C10 (amended): a run of `main` whose lowercased provider is supported
— an unsupported `LLM_PROVIDER` raises before `./output` is touched —
and in which no kept subdirectory shares a name with an output file — a
collision crashes the write loop with `IsADirectoryError` — first
empties `./output` of its regular files, keeping subdirectories and
creating the directory when it is absent, and then writes exactly one
regular file per model of the provider's model list, named by
`outputFileName`. -/
theorem mainClearsAndWritesPerModel (env0 : Option String)
    (output0 : Option (List DirEntry)) (models : List String)
    (hmodels : modelListFor (strLower (env0.getD "gemini")) = .ok models)
    (hfresh : ∀ e ∈ clearOutputDir output0, ∀ m ∈ models,
      e.name ≠ outputFileName (strLower (env0.getD "gemini")) m) :
    mainRun env0 output0
      = .ok (clearOutputDir output0
          ++ outputFiles (strLower (env0.getD "gemini")) models) ∧
    (clearOutputDir output0
        ++ outputFiles (strLower (env0.getD "gemini")) models).filter
          (fun e => e.isFile)
      = outputFiles (strLower (env0.getD "gemini")) models ∧
    (clearOutputDir output0
        ++ outputFiles (strLower (env0.getD "gemini")) models).filter
          (fun e => !e.isFile)
      = clearOutputDir output0 := by
  have hnames : (models.map (outputFileName (strLower (env0.getD "gemini")))).Nodup := by
    have h := hmodels
    unfold modelListFor at h
    by_cases h1 : strLower (env0.getD "gemini") = "azure_openai"
    · rw [if_pos h1] at h
      injection h with h'
      subst h'
      rw [h1]
      decide
    · rw [if_neg h1] at h
      by_cases h2 : strLower (env0.getD "gemini") = "gemini"
      · rw [if_pos h2] at h
        injection h with h'
        subst h'
        rw [h2]
        decide
      · rw [if_neg h2] at h
        exact Except.noConfusion h
  have hfresh2 : ∀ fn ∈ models.map (outputFileName (strLower (env0.getD "gemini"))),
      ∀ e ∈ clearOutputDir output0, e.name ≠ fn := by
    intro fn hfn e he
    obtain ⟨m, hm, rfl⟩ := List.mem_map.mp hfn
    exact hfresh e he m hm
  refine ⟨?_, ?_, ?_⟩
  · simp only [mainRun]
    rw [hmodels]
    show writeModelFiles (clearOutputDir output0)
        (models.map (outputFileName (strLower (env0.getD "gemini")))) = _
    rw [writeModelFiles_fresh _ _ hnames hfresh2]
    simp [outputFiles, List.map_map, Function.comp]
  · rw [List.filter_append, clearOutputDir_filter_isFile, outputFiles_filter_isFile]
    rfl
  · rw [List.filter_append, clearOutputDir_filter_not_isFile,
      outputFiles_filter_not_isFile]
    simp

/-- Witness for C10: no `LLM_PROVIDER` set (so the gemini default), with
a prior `./output` holding one stale regular file and one
subdirectory. -/
theorem mainClearsAndWritesPerModel_witness :
    mainRun none (some sampleOutput)
      = .ok (clearOutputDir (some sampleOutput)
          ++ outputFiles (strLower ((none : Option String).getD "gemini"))
              ["gemini-2.0-flash-exp", "gemini-1.5-flash", "gemini-1.5-pro"]) ∧
    (clearOutputDir (some sampleOutput)
        ++ outputFiles (strLower ((none : Option String).getD "gemini"))
            ["gemini-2.0-flash-exp", "gemini-1.5-flash", "gemini-1.5-pro"]).filter
          (fun e => e.isFile)
      = outputFiles (strLower ((none : Option String).getD "gemini"))
          ["gemini-2.0-flash-exp", "gemini-1.5-flash", "gemini-1.5-pro"] ∧
    (clearOutputDir (some sampleOutput)
        ++ outputFiles (strLower ((none : Option String).getD "gemini"))
            ["gemini-2.0-flash-exp", "gemini-1.5-flash", "gemini-1.5-pro"]).filter
          (fun e => !e.isFile)
      = clearOutputDir (some sampleOutput) :=
  mainClearsAndWritesPerModel none (some sampleOutput)
    ["gemini-2.0-flash-exp", "gemini-1.5-flash", "gemini-1.5-pro"]
    (by rfl) (by decide)
